import Mathlib

/-!
Verification of the message-passing core of the dglLearn notebooks.

The embedded code comes from `src/blitz_intro/3_message_passing.ipynb`
(`SAGEConv.forward`, `WeightedSAGEConv.forward`, the builtin message and
reduce functions `fn.copy_u`, `fn.u_mul_e`, `fn.mean` that those layers
invoke through `g.update_all`, and the `g.local_scope()` context manager)
and from `src/blitz_intro/4_link_predict.ipynb` (`DotPredictor.forward`
with `fn.u_dot_v`, and the negative-edge sampling cell building
`adj_neg` / `neg_eids`).

Tensors are embedded as lists of rationals (exact arithmetic in place of
floating point), a graph as a node count plus a list of directed edges,
and the mutable feature storage `g.ndata` / `g.edata` as association
lists keyed by the feature names used in the notebooks.
-/

namespace DGL

/-- A feature vector (one row of a tensor). -/
abbrev Vec := List ℚ

/-- A feature matrix: row `i` is node (or edge) `i`'s feature vector. -/
abbrev Matrix := List Vec

/-- A directed graph as stored by `dgl.graph`: node ids `0..numNodes-1`
and a list of directed edges `(src, dst)`. -/
structure Graph where
  numNodes : Nat
  edges : List (Nat × Nat)
deriving DecidableEq, Repr

/-- The invariant `dgl.graph` enforces on construction: every edge
endpoint is an existing node id. -/
def Graph.validEdges (g : Graph) : Bool :=
  g.edges.all (fun e => decide (e.1 < g.numNodes) && decide (e.2 < g.numNodes))

/-- Elementwise vector addition (`torch` broadcasting is not needed:
all rows of a well-shaped matrix have one common length). -/
def vecAdd (a b : Vec) : Vec := List.zipWith (· + ·) a b

/-- Scalar multiple of a vector; embeds the broadcast multiplication of
a `(E, 1)`-shaped edge-weight column against a `(E, Din)` message. -/
def vecScale (c : ℚ) (v : Vec) : Vec := v.map (fun x => c * x)

/-- The all-zero vector of dimension `d`. -/
def vecZero (d : Nat) : Vec := List.replicate d 0

/-- Sum of a list of `d`-dimensional vectors. -/
def vecSum (d : Nat) (vs : List Vec) : Vec := vs.foldl vecAdd (vecZero d)

/-- Mean of a list of `d`-dimensional vectors; the empty list yields the
zero vector, matching the zero-fill DGL applies to zero-in-degree nodes
during `update_all`. -/
def vecMean (d : Nat) (vs : List Vec) : Vec :=
  if vs.length = 0 then vecZero d
  else vecScale (1 / (vs.length : ℚ)) (vecSum d vs)

/-- `fn.copy_u("h", "m")`: the message on each edge is the source node's
feature vector. -/
def copy_u (g : Graph) (h : Matrix) : List Vec :=
  g.edges.map (fun e => h.getD e.1 [])

/-- `fn.u_mul_e("h", "w", "m")`: the message on each edge is the source
node's feature vector multiplied elementwise by that edge's weight
(the notebooks pass a `(E, 1)` weight column, i.e. one scalar per edge,
broadcast over the feature dimension). -/
def u_mul_e (g : Graph) (h : Matrix) (w : List ℚ) : List Vec :=
  List.zipWith (fun e wi => vecScale wi (h.getD e.1 [])) g.edges w

/-- `g.update_all(message_func, fn.mean("m", "h_N"))` given the per-edge
messages `msgs` (aligned with `g.edges`): each node averages the
messages of its incoming edges; a node with no incoming edges gets the
zero vector of dimension `d`. -/
def updateAllMean (g : Graph) (d : Nat) (msgs : List Vec) : Matrix :=
  (List.range g.numNodes).map (fun v =>
    vecMean d ((((g.edges.zip msgs)).filter (fun p => p.1.2 == v)).map Prod.snd))

/-- Dot product of two vectors (`fn.u_dot_v` computes this per edge). -/
def dot (a b : Vec) : ℚ := (List.zipWith (· * ·) a b).sum

/-- `nn.Linear(2 * in_feat, out_feat)` applied to one input row: each
output coordinate is the dot product of a weight row with the input,
plus the bias. -/
def linearApply (W : Matrix) (b : Vec) (x : Vec) : Vec :=
  List.zipWith (fun row bi => dot row x + bi) W b

/-- The learnable state of the `SAGEConv` module: the declared sizes and
the parameters of its `nn.Linear(in_feat * 2, out_feat)` submodule. -/
structure SAGEConv where
  in_feat : Nat
  out_feat : Nat
  W : Matrix
  b : Vec
deriving DecidableEq, Repr

/-- The learnable state of the `WeightedSAGEConv` module; its fields are
the same as `SAGEConv`'s (both hold one `nn.Linear(in_feat * 2,
out_feat)`). -/
structure WeightedSAGEConv where
  in_feat : Nat
  out_feat : Nat
  W : Matrix
  b : Vec
deriving DecidableEq, Repr

/-- `SAGEConv.forward(g, h)` as a pure function of the graph and the
input features: mean-aggregate the neighbours via `copy_u` messages,
concatenate each node's own feature with its aggregate (dim 1), and
apply the linear layer rowwise. The message dimension is the feature
dimension of `h`. -/
def SAGEConv.forward (layer : SAGEConv) (g : Graph) (h : Matrix) : Matrix :=
  let d := (h.headD []).length
  let h_N := updateAllMean g d (copy_u g h)
  let h_total := (h.zip h_N).map (fun p => p.1 ++ p.2)
  h_total.map (linearApply layer.W layer.b)

/-- `WeightedSAGEConv.forward(g, h, w)` as a pure function: identical to
`SAGEConv.forward` except the messages are `u_mul_e` (source feature
times edge weight). -/
def WeightedSAGEConv.forward (layer : WeightedSAGEConv) (g : Graph) (h : Matrix)
    (w : List ℚ) : Matrix :=
  let d := (h.headD []).length
  let h_N := updateAllMean g d (u_mul_e g h w)
  let h_total := (h.zip h_N).map (fun p => p.1 ++ p.2)
  h_total.map (linearApply layer.W layer.b)

/-- The feature names the notebooks store in `g.ndata` / `g.edata`
(`"h"`, `"h_N"`, `"w"`, `"score"`), embedded as an enumeration. -/
inductive FeatKey where
  | h
  | h_N
  | w
  | score
deriving DecidableEq, Repr

/-- A `DGLGraph` with its mutable feature storage: the structure plus
the `ndata` and `edata` association lists. -/
structure GraphState where
  graph : Graph
  ndata : List (FeatKey × Matrix)
  edata : List (FeatKey × Matrix)
deriving DecidableEq, Repr

/-- Read a feature from a storage list (missing keys yield `[]`). -/
def findFeat (l : List (FeatKey × Matrix)) (k : FeatKey) : Matrix :=
  match l.find? (fun p => p.1 == k) with
  | some p => p.2
  | none => []

/-- `g.ndata[k] = m`: overwrite key `k` in the node storage. -/
def setNData (gs : GraphState) (k : FeatKey) (m : Matrix) : GraphState :=
  { gs with ndata := (k, m) :: gs.ndata.filter (fun p => p.1 != k) }

/-- `g.edata[k] = m`: overwrite key `k` in the edge storage. -/
def setEData (gs : GraphState) (k : FeatKey) (m : Matrix) : GraphState :=
  { gs with edata := (k, m) :: gs.edata.filter (fun p => p.1 != k) }

/-- Errors of the aggregation contract (the spec's error taxonomy). -/
inductive AggError where
  | ShapeMismatch
  | InvalidGraph
deriving DecidableEq, Repr

/-- `with g.local_scope():` — the body runs on the current state, and on
every exit path (normal return or raised error) all feature mutations
made inside the scope are discarded, restoring the pre-call storage. -/
def localScope {α : Type} (gs : GraphState)
    (body : GraphState → Except AggError (α × GraphState)) :
    Except AggError α × GraphState :=
  match body gs with
  | Except.ok r => (Except.ok r.1, gs)
  | Except.error e => (Except.error e, gs)

/-- `SAGEConv.forward` acting on the stateful graph, exactly following
the notebook body: enter `local_scope`, assign `g.ndata["h"] = h`, run
`update_all(fn.copy_u("h", "m"), fn.mean("m", "h_N"))` (which stores the
result in `g.ndata["h_N"]`), read `h_N` back, concatenate and apply the
linear layer. Returns the output row matrix and the post-call state. -/
def SAGEConv.forwardState (layer : SAGEConv) (gs : GraphState) (h : Matrix) :
    Except AggError Matrix × GraphState :=
  localScope gs (fun s =>
    let s1 := setNData s FeatKey.h h
    let d := ((findFeat s1.ndata FeatKey.h).headD []).length
    let msgs := copy_u s1.graph (findFeat s1.ndata FeatKey.h)
    let s2 := setNData s1 FeatKey.h_N (updateAllMean s1.graph d msgs)
    let h_N := findFeat s2.ndata FeatKey.h_N
    let h_total := (h.zip h_N).map (fun p => p.1 ++ p.2)
    Except.ok (h_total.map (linearApply layer.W layer.b), s2))

/-- `WeightedSAGEConv.forward` acting on the stateful graph: like
`SAGEConv.forwardState` but it also assigns `g.edata["w"] = w` and uses
`fn.u_mul_e("h", "w", "m")` as the message function. -/
def WeightedSAGEConv.forwardState (layer : WeightedSAGEConv) (gs : GraphState)
    (h : Matrix) (w : List ℚ) : Except AggError Matrix × GraphState :=
  localScope gs (fun s =>
    let s1 := setEData (setNData s FeatKey.h h) FeatKey.w (w.map (fun c => [c]))
    let hh := findFeat s1.ndata FeatKey.h
    let d := (hh.headD []).length
    let ww := (findFeat s1.edata FeatKey.w).map (fun r => r.getD 0 0)
    let s2 := setNData s1 FeatKey.h_N (updateAllMean s1.graph d (u_mul_e s1.graph hh ww))
    let h_N := findFeat s2.ndata FeatKey.h_N
    let h_total := (h.zip h_N).map (fun p => p.1 ++ p.2)
    Except.ok (h_total.map (linearApply layer.W layer.b), s2))

/-- `fn.u_dot_v("h", "h", "score")`: per edge, a 1-element vector
holding the dot product of the source and destination feature rows. -/
def u_dot_v (g : Graph) (h : Matrix) : Matrix :=
  g.edges.map (fun e => [dot (h.getD e.1 []) (h.getD e.2 [])])

/-- `DotPredictor.forward(g, h)` from the link-prediction notebook:
under `local_scope`, assign `g.ndata["h"] = h`, run
`g.apply_edges(fn.u_dot_v("h", "h", "score"))` (storing into
`g.edata["score"]`), and return `g.edata["score"][:, 0]`. -/
def DotPredictor.forwardState (gs : GraphState) (h : Matrix) :
    Except AggError (List ℚ) × GraphState :=
  localScope gs (fun s =>
    let s1 := setNData s FeatKey.h h
    let s2 := setEData s1 FeatKey.score (u_dot_v s1.graph (findFeat s1.ndata FeatKey.h))
    let score := findFeat s2.edata FeatKey.score
    Except.ok (score.map (fun r => r.getD 0 0), s2))

/-- Does `h` have one row per node, every row of length `din`? -/
def shapeOk (din : Nat) (g : Graph) (h : Matrix) : Bool :=
  (h.length == g.numNodes) && h.all (fun row => row.length == din)

/-- Modelled from the spec: the notebooks contain no explicit input
validation (`SAGEConv.forward` delegates shape checking to `nn.Linear` /
`torch.cat` and edge-endpoint checking to `dgl.graph`, both outside this
repository); the spec requires `aggregate` to fail with `ShapeMismatch`
when node or edge feature dimensions are inconsistent with the declared
input dimension and with `InvalidGraph` when an edge references a
non-existent node id, detecting either before producing any output.
`checkedForward` is that validated aggregate: the checks run first
inside the `local_scope`, and only if both pass does the layer compute
(with `copy_u` messages, or `u_mul_e` when a weight column is given). -/
def checkedForward (layer : SAGEConv) (gs : GraphState) (h : Matrix)
    (wOpt : Option (List ℚ)) : Except AggError Matrix × GraphState :=
  localScope gs (fun s =>
    if shapeOk layer.in_feat s.graph h = false then
      Except.error AggError.ShapeMismatch
    else if (match wOpt with
             | some w => w.length == s.graph.edges.length
             | none => true) = false then
      Except.error AggError.ShapeMismatch
    else if s.graph.validEdges = false then
      Except.error AggError.InvalidGraph
    else
      let msgs := match wOpt with
        | some w => u_mul_e s.graph h w
        | none => copy_u s.graph h
      let s1 := setNData (setNData s FeatKey.h h) FeatKey.h_N
        (updateAllMean s.graph layer.in_feat msgs)
      let h_N := findFeat s1.ndata FeatKey.h_N
      let h_total := (h.zip h_N).map (fun p => p.1 ++ p.2)
      Except.ok (h_total.map (linearApply layer.W layer.b), s1))

/-- Multiplicity of the directed edge `(u, v)` in `g` (the `coo_matrix`
built over `np.ones(len(u))` sums duplicate entries). -/
def edgeMultiplicity (g : Graph) (u v : Nat) : Nat :=
  (g.edges.filter (fun e => e.1 == u && e.2 == v)).length

/-- Entry `(u, v)` of `adj_neg = 1 - adj.todense() - np.eye(num_nodes)`
from the link-prediction notebook. -/
def adjNegEntry (g : Graph) (u v : Nat) : Int :=
  1 - (edgeMultiplicity g u v : Int) - (if u = v then 1 else 0)

/-- `neg_u, neg_v = np.where(adj_neg != 0)`: the candidate "negative"
pairs, in row-major order, are exactly the index pairs whose `adj_neg`
entry is nonzero. -/
def negCandidates (g : Graph) : List (Nat × Nat) :=
  ((List.range g.numNodes).map (fun u =>
    ((List.range g.numNodes).filter (fun v => adjNegEntry g u v != 0)).map
      (fun v => (u, v)))).flatten

/-- Modelled from the spec: `neg_eids = np.random.choice(len(neg_u),
g.num_edges())` draws indices with replacement (numpy's default
`replace=True`); the random number generator is outside this repository,
so the draw is modelled by an arbitrary list of drawn index values, each
reduced modulo the candidate count, and sampling with replacement means
the same candidate may be selected at several positions. -/
def sampleNegEdges (g : Graph) (draws : List Nat) : List (Nat × Nat) :=
  draws.map (fun i => (negCandidates g).getD (i % (negCandidates g).length) (0, 0))

/-! ### Helper lemmas -/

theorem zipWith_replicate_len {α β γ : Type} (f : α → β → γ) (c : β) :
    ∀ l : List α, List.zipWith f l (List.replicate l.length c) = l.map (fun a => f a c)
  | [] => rfl
  | a :: t => by simp [List.replicate, zipWith_replicate_len f c t]

theorem zip_self_map {α β : Type} (f : α → β) :
    ∀ l : List α, l.zip (l.map f) = l.map (fun a => (a, f a))
  | [] => rfl
  | a :: t => by simp [List.zip_cons_cons, zip_self_map f t]

theorem vecScale_one (v : Vec) : vecScale 1 v = v := by
  simp [vecScale]

theorem vecAdd_zero : ∀ (m : Vec), vecAdd (vecZero m.length) m = m
  | [] => rfl
  | x :: t => by
    simp [vecAdd, vecZero, List.replicate] at *
    simpa [vecAdd, vecZero] using vecAdd_zero t

theorem vecMean_singleton (m : Vec) : vecMean m.length [m] = m := by
  simp [vecMean, vecSum]
  rw [vecScale_one]
  exact vecAdd_zero m

theorem updateAllMean_getD (g : Graph) (d : Nat) (msgs : List Vec) (v : Nat)
    (hv : v < g.numNodes) :
    (updateAllMean g d msgs).getD v [] =
      vecMean d (((g.edges.zip msgs).filter (fun p => p.1.2 == v)).map Prod.snd) := by
  simp [updateAllMean, List.getD_eq_getElem?_getD, List.getElem?_map, List.getElem?_range hv]


theorem updateAllMean_copy_u_getD (g : Graph) (X : Matrix) (d : Nat) (v : Nat)
    (hv : v < g.numNodes) :
    (updateAllMean g d (copy_u g X)).getD v [] =
      vecMean d ((g.edges.filter (fun e => e.2 == v)).map (fun e => X.getD e.1 [])) := by
  rw [updateAllMean_getD g d _ v hv, copy_u, zip_self_map]
  simp only [List.filter_map, List.map_map]
  rfl

theorem map_zip_getD {α β γ : Type} (f : α × β → γ) :
    ∀ (l1 : List α) (l2 : List β) (i : Nat) (x : α) (y : β) (dflt : γ),
      l1[i]? = some x → l2[i]? = some y → ((l1.zip l2).map f).getD i dflt = f (x, y)
  | [], _, _, _, _, _ => by intro h1 _; simp at h1
  | _ :: _, [], _, _, _, _ => by intro _ h2; simp at h2
  | a :: t1, b :: t2, 0, x, y, dflt => by
    intro h1 h2
    simp at h1 h2
    simp [h1, h2]
  | a :: t1, b :: t2, i + 1, x, y, dflt => by
    intro h1 h2
    simp at h1 h2
    simpa using map_zip_getD f t1 t2 i x y dflt h1 h2

theorem updateAllMean_length (g : Graph) (d : Nat) (msgs : List Vec) :
    (updateAllMean g d msgs).length = g.numNodes := by
  simp [updateAllMean]

theorem forward_getD (layer : SAGEConv) (g : Graph) (h : Matrix) (v : Nat)
    (hv : v < g.numNodes) (hlen : h.length = g.numNodes) :
    (SAGEConv.forward layer g h).getD v [] =
      linearApply layer.W layer.b (h.getD v [] ++
        (updateAllMean g (h.headD []).length (copy_u g h)).getD v []) := by
  unfold SAGEConv.forward
  rw [List.map_map]
  have h1 : h[v]? = some (h.getD v []) := by
    rw [List.getElem?_eq_getElem (by omega), List.getD_eq_getElem _ _ (by omega)]
  have h2 : (updateAllMean g (h.headD []).length (copy_u g h))[v]? =
      some ((updateAllMean g (h.headD []).length (copy_u g h)).getD v []) := by
    rw [List.getElem?_eq_getElem (by rw [updateAllMean_length]; omega),
      List.getD_eq_getElem _ _ (by rw [updateAllMean_length]; omega)]
  exact map_zip_getD _ h _ v _ _ [] h1 h2


theorem vecAdd_length (a b : Vec) : (vecAdd a b).length = min a.length b.length := by
  simp [vecAdd]

theorem foldl_vecAdd_length (d : Nat) :
    ∀ (vs : List Vec), (∀ u ∈ vs, u.length = d) →
      ∀ acc : Vec, acc.length = d → (vs.foldl vecAdd acc).length = d
  | [], _, acc, hacc => by simpa using hacc
  | v :: t, hvs, acc, hacc => by
    refine foldl_vecAdd_length d t (fun u hu => hvs u (by simp [hu])) _ ?_
    rw [vecAdd_length, hacc, hvs v (by simp)]
    omega

theorem vecSum_length (d : Nat) (vs : List Vec) (hvs : ∀ u ∈ vs, u.length = d) :
    (vecSum d vs).length = d :=
  foldl_vecAdd_length d vs hvs (vecZero d) (by simp [vecZero])

theorem vecScale_length (c : ℚ) (v : Vec) : (vecScale c v).length = v.length := by
  simp [vecScale]

theorem vecMean_length (d : Nat) (vs : List Vec) (hvs : ∀ u ∈ vs, u.length = d) :
    (vecMean d vs).length = d := by
  unfold vecMean
  split
  · simp [vecZero]
  · rw [vecScale_length]
    exact vecSum_length d vs hvs

theorem vecMean_nil (d : Nat) : vecMean d [] = vecZero d := rfl

theorem filter_no_incoming (g : Graph) (msgs : List Vec) (v : Nat)
    (hdeg : ∀ e ∈ g.edges, e.2 ≠ v) :
    ((g.edges.zip msgs).filter (fun p => p.1.2 == v)) = [] := by
  rw [List.filter_eq_nil_iff]
  intro p hp
  simpa using hdeg p.1 (List.of_mem_zip hp).1

theorem localScope_snd {α : Type} (gs : GraphState)
    (body : GraphState → Except AggError (α × GraphState)) :
    (localScope gs body).2 = gs := by
  unfold localScope
  cases body gs <;> rfl

theorem u_mul_e_ones (g : Graph) (h : Matrix) :
    u_mul_e g h (List.replicate g.edges.length 1) = copy_u g h := by
  unfold u_mul_e copy_u
  rw [zipWith_replicate_len]
  simp [vecScale_one]

theorem headD_mem : ∀ (h : Matrix), h ≠ [] → h.headD [] ∈ h
  | [], hne => absurd rfl hne
  | r :: t, _ => by simp


/-! ### Claim theorems -/

/-- C1: for every graph and node feature matrix, the `copy_u` message on
edge `i` is the source node's feature vector, the mean-aggregated vector
at every destination node `v` is the mean of the features of the sources
of `v`'s incoming edges, and on the 3-node graph with edges `0→1`, `2→1`
and features `[[1,0],[0,0],[0,1]]` node 1 aggregates to `[1/2, 1/2]`
while nodes 0 and 2 aggregate to `[0, 0]`. -/
theorem C1_mean_aggregate (g : Graph) (X : Matrix) (d v : Nat)
    (hv : v < g.numNodes) :
    (∀ i, i < g.edges.length →
      (copy_u g X).getD i [] = X.getD (g.edges.getD i (0, 0)).1 []) ∧
    (updateAllMean g d (copy_u g X)).getD v [] =
      vecMean d ((g.edges.filter (fun e => e.2 == v)).map (fun e => X.getD e.1 [])) ∧
    updateAllMean ⟨3, [(0, 1), (2, 1)]⟩ 2
        (copy_u ⟨3, [(0, 1), (2, 1)]⟩ [[1, 0], [0, 0], [0, 1]]) =
      [[0, 0], [1/2, 1/2], [0, 0]] := by
  refine ⟨?_, updateAllMean_copy_u_getD g X d v hv, ?_⟩
  · intro i hi
    simp [copy_u, List.getD_eq_getElem?_getD, List.getElem?_map,
      List.getElem?_eq_getElem hi, List.getD_eq_getElem _ _ hi]
  · norm_num [updateAllMean, copy_u, vecMean, vecSum, vecAdd, vecScale, vecZero,
      List.range_succ, List.replicate]

theorem C1_mean_aggregate_witness :
    (updateAllMean ⟨3, [(0, 1), (2, 1)]⟩ 2
        (copy_u ⟨3, [(0, 1), (2, 1)]⟩ [[1, 0], [0, 0], [0, 1]])).getD 1 [] =
      vecMean 2 (((Graph.edges ⟨3, [(0, 1), (2, 1)]⟩).filter (fun e => e.2 == 1)).map
        (fun e => List.getD [[1, 0], [0, 0], [0, 1]] e.1 [])) :=
  (C1_mean_aggregate ⟨3, [(0, 1), (2, 1)]⟩ [[1, 0], [0, 0], [0, 1]] 2 1 (by decide)).2.1

/-- C3: a node with no incoming edges mean-aggregates to the zero
vector, and the layer output at such a node is the linear transform of
its own feature concatenated with the zero vector. -/
theorem C3_zero_in_degree (layer : SAGEConv) (g : Graph) (h : Matrix) (v : Nat)
    (hv : v < g.numNodes) (hlen : h.length = g.numNodes)
    (hdeg : ∀ e ∈ g.edges, e.2 ≠ v) :
    (updateAllMean g (h.headD []).length (copy_u g h)).getD v [] =
      vecZero (h.headD []).length ∧
    (SAGEConv.forward layer g h).getD v [] =
      linearApply layer.W layer.b (h.getD v [] ++ vecZero (h.headD []).length) := by
  have hz : (updateAllMean g (h.headD []).length (copy_u g h)).getD v [] =
      vecZero (h.headD []).length := by
    rw [updateAllMean_getD _ _ _ _ hv, filter_no_incoming g _ v hdeg]
    rfl
  exact ⟨hz, by rw [forward_getD layer g h v hv hlen, hz]⟩

theorem C3_zero_in_degree_witness :
    (SAGEConv.forward ⟨2, 1, [[1, 1, 1, 1]], [0]⟩ ⟨2, []⟩ [[1, 2], [3, 4]]).getD 0 [] =
      linearApply [[1, 1, 1, 1]] [0] ([1, 2] ++ vecZero 2) :=
  (C3_zero_in_degree ⟨2, 1, [[1, 1, 1, 1]], [0]⟩ ⟨2, []⟩ [[1, 2], [3, 4]] 0
    (by decide) (by decide) (by decide)).2


/-- C4: with one feature row per node, all rows of width `din`, and
linear parameters of the declared output size, the layer output has one
row per node (whatever the edge list is), every output row has length
`out_feat`, and for a valid graph each concatenated row fed to the
linear transform has length `2 * din`. -/
theorem C4_output_shape (layer : SAGEConv) (g : Graph) (h : Matrix) (din : Nat)
    (hlen : h.length = g.numNodes) (hrow : ∀ r ∈ h, r.length = din)
    (hW : layer.W.length = layer.out_feat) (hb : layer.b.length = layer.out_feat) :
    (SAGEConv.forward layer g h).length = g.numNodes ∧
    (∀ r ∈ SAGEConv.forward layer g h, r.length = layer.out_feat) ∧
    (g.validEdges = true → ∀ v, v < g.numNodes →
      (h.getD v [] ++
        (updateAllMean g (h.headD []).length (copy_u g h)).getD v []).length = 2 * din) := by
  refine ⟨?_, ?_, ?_⟩
  · simp [SAGEConv.forward, updateAllMean_length, hlen]
  · intro r hr
    rw [SAGEConv.forward] at hr
    obtain ⟨x, _, hx⟩ := List.mem_map.mp hr
    rw [← hx, linearApply, List.length_zipWith, hW, hb]
    omega
  · intro hvalid v hv
    have hne : h ≠ [] := by
      intro hnil
      rw [hnil] at hlen
      simp at hlen
      omega
    have hd : (h.headD []).length = din := hrow _ (headD_mem h hne)
    have hgv : (h.getD v []).length = din := by
      apply hrow
      rw [List.getD_eq_getElem _ _ (by omega)]
      exact List.getElem_mem _
    rw [List.length_append, hgv, updateAllMean_copy_u_getD g h _ v hv, hd,
      vecMean_length]
    · omega
    · intro u hu
      obtain ⟨e, he, hx⟩ := List.mem_map.mp hu
      have hmem : e ∈ g.edges := List.mem_of_mem_filter he
      have h1 : e.1 < g.numNodes := by
        have := List.all_eq_true.mp hvalid e hmem
        simp at this
        exact this.1
      rw [← hx]
      apply hrow
      rw [List.getD_eq_getElem _ _ (by omega)]
      exact List.getElem_mem _

theorem C4_output_shape_witness :
    (SAGEConv.forward ⟨2, 1, [[1, 0, 0, 0]], [5]⟩ ⟨2, [(0, 1)]⟩
      [[1, 2], [3, 4]]).length = Graph.numNodes ⟨2, [(0, 1)]⟩ :=
  (C4_output_shape ⟨2, 1, [[1, 0, 0, 0]], [5]⟩ ⟨2, [(0, 1)]⟩ [[1, 2], [3, 4]] 2
    (by decide) (by decide) (by decide) (by decide)).1

/-- C2: every layer forward pass leaves the graph state — the structure
and the persistent `ndata` / `edata` storage — exactly as it was before
the call, on every exit path (`checkedForward` covers the error
paths). -/
theorem C2_no_mutation (L : SAGEConv) (LW : WeightedSAGEConv) (LC : SAGEConv)
    (gs : GraphState) (h : Matrix) (w : List ℚ) (wOpt : Option (List ℚ)) :
    (SAGEConv.forwardState L gs h).2 = gs ∧
    (WeightedSAGEConv.forwardState LW gs h w).2 = gs ∧
    (DotPredictor.forwardState gs h).2 = gs ∧
    (checkedForward LC gs h wOpt).2 = gs :=
  ⟨localScope_snd gs _, localScope_snd gs _, localScope_snd gs _, localScope_snd gs _⟩

/-- C5: the stateful forward pass returns exactly the pure function of
the graph, the input features and the parameters — so it reads no hidden
state — and running it a second time on the post-call state gives the
very same result as the first run. -/
theorem C5_deterministic (L : SAGEConv) (gs : GraphState) (h : Matrix) :
    (SAGEConv.forwardState L gs h).1 = Except.ok (SAGEConv.forward L gs.graph h) ∧
    SAGEConv.forwardState L (SAGEConv.forwardState L gs h).2 h =
      SAGEConv.forwardState L gs h := by
  refine ⟨rfl, ?_⟩
  have h2 : (SAGEConv.forwardState L gs h).2 = gs := localScope_snd gs _
  rw [h2]


/-- C6: the validated aggregate fails with `ShapeMismatch` whenever the
node features (or the optional edge-weight column) are inconsistent with
the declared input dimension, fails with `InvalidGraph` whenever an edge
references a non-existent node id, and every failure is detected before
any output is produced: the error result carries no matrix and the
post-call state always equals the pre-call state. -/
theorem C6_error_contract (layer : SAGEConv) (gs : GraphState) (h : Matrix)
    (wOpt : Option (List ℚ)) :
    ((checkedForward layer gs h wOpt).2 = gs) ∧
    (shapeOk layer.in_feat gs.graph h = false →
      (checkedForward layer gs h wOpt).1 = Except.error AggError.ShapeMismatch) ∧
    (∀ w, wOpt = some w → shapeOk layer.in_feat gs.graph h = true →
      (w.length == gs.graph.edges.length) = false →
      (checkedForward layer gs h wOpt).1 = Except.error AggError.ShapeMismatch) ∧
    (shapeOk layer.in_feat gs.graph h = true →
      (match wOpt with
       | some w => w.length == gs.graph.edges.length
       | none => true) = true →
      gs.graph.validEdges = false →
      (checkedForward layer gs h wOpt).1 = Except.error AggError.InvalidGraph) := by
  refine ⟨localScope_snd gs _, ?_, ?_, ?_⟩
  · intro hs
    simp [checkedForward, localScope, hs]
  · intro w hw hs hwlen
    subst hw
    simp [checkedForward, localScope, hs, hwlen]
  · intro hs hwok hval
    simp [checkedForward, localScope, hs, hwok, hval]

theorem C6_error_contract_witness :
    (checkedForward ⟨2, 1, [[1, 1, 1, 1]], [0]⟩ ⟨⟨1, []⟩, [], []⟩ [[1]] none).1 =
      Except.error AggError.ShapeMismatch :=
  (C6_error_contract ⟨2, 1, [[1, 1, 1, 1]], [0]⟩ ⟨⟨1, []⟩, [], []⟩ [[1]] none).2.1
    (by decide)

/-- C7: on a graph whose only edge is the self-loop `u→u` with weight 1,
mean aggregation with `u_mul_e` messages reproduces node `u`'s own
feature vector exactly. -/
theorem C7_self_loop (n u d : Nat) (X : Matrix) (hu : u < n)
    (hd : (X.getD u []).length = d) :
    (updateAllMean ⟨n, [(u, u)]⟩ d (u_mul_e ⟨n, [(u, u)]⟩ X [1])).getD u [] =
      X.getD u [] := by
  rw [updateAllMean_getD _ _ _ u hu]
  show vecMean d ((List.filter _ (List.zip [(u, u)] [vecScale 1 (X.getD u [])])).map
    Prod.snd) = X.getD u []
  rw [vecScale_one]
  simp only [List.zip_cons_cons, List.zip_nil_right, List.filter, beq_self_eq_true,
    List.map_cons, List.map_nil]
  rw [← hd]
  exact vecMean_singleton _

theorem C7_self_loop_witness :
    (updateAllMean ⟨1, [(0, 0)]⟩ 2 (u_mul_e ⟨1, [(0, 0)]⟩ [[3, 5]] [1])).getD 0 [] =
      List.getD [[3, 5]] 0 [] :=
  C7_self_loop 1 0 2 [[3, 5]] (by decide) (by decide)

/-- C8: the dot-product scorer returns, for each candidate edge
`(u, v)`, the dot product of the two endpoint feature rows, leaves the
graph state untouched, and scores the pair `h_u = [1, 2]`,
`h_v = [3, 4]` as 11. -/
theorem C8_dot_scorer (gs : GraphState) (h : Matrix) :
    (DotPredictor.forwardState gs h).1 =
      Except.ok (gs.graph.edges.map (fun e => dot (h.getD e.1 []) (h.getD e.2 []))) ∧
    (DotPredictor.forwardState gs h).2 = gs ∧
    (DotPredictor.forwardState ⟨⟨2, [(0, 1)]⟩, [], []⟩ [[1, 2], [3, 4]]).1 =
      Except.ok [11] := by
    refine ⟨?_, localScope_snd gs _, ?_⟩
    · show Except.ok ((u_dot_v gs.graph h).map (fun r => r.getD 0 0)) = _
      rw [u_dot_v, List.map_map]
      rfl
    · norm_num [DotPredictor.forwardState, localScope, u_dot_v, dot, setNData,
        setEData, findFeat]

/-- C9: the negative sampling of the link-prediction notebook draws with
replacement — a draw can pick the same candidate pair at two distinct
positions — and a sampled "negative" pair can coincide with a true
positive edge of the graph (here the duplicated edge `(0, 1)` makes the
`adj_neg` entry `-1 ≠ 0`, so `(0, 1)` is a candidate even though it is
an edge). -/
theorem C9_negative_sampling :
    ∃ (g : Graph) (draws : List Nat),
      (∃ i j, i < draws.length ∧ j < draws.length ∧ i ≠ j ∧
        (sampleNegEdges g draws).getD i (0, 0) =
          (sampleNegEdges g draws).getD j (0, 0)) ∧
      ∃ p ∈ sampleNegEdges g draws, p ∈ g.edges := by
  refine ⟨⟨2, [(0, 1), (0, 1)]⟩, [0, 0],
    ⟨0, 1, by decide, by decide, by decide, by decide⟩, ⟨(0, 1), by decide, by decide⟩⟩

/-- C10: the weighted layer run with an all-ones weight column computes
exactly what the unweighted layer computes, whenever the two layers
carry identical linear parameters. -/
theorem C10_ones_weights (L : SAGEConv) (LW : WeightedSAGEConv)
    (hW : LW.W = L.W) (hb : LW.b = L.b) (g : Graph) (h : Matrix) :
    WeightedSAGEConv.forward LW g h (List.replicate g.edges.length 1) =
      SAGEConv.forward L g h := by
  unfold WeightedSAGEConv.forward SAGEConv.forward
  rw [u_mul_e_ones, hW, hb]

theorem C10_ones_weights_witness :
    WeightedSAGEConv.forward ⟨2, 1, [[1, 0, 0, 0]], [0]⟩ ⟨2, [(0, 1)]⟩
        [[1, 2], [3, 4]] [1] =
      SAGEConv.forward ⟨2, 1, [[1, 0, 0, 0]], [0]⟩ ⟨2, [(0, 1)]⟩ [[1, 2], [3, 4]] :=
  C10_ones_weights ⟨2, 1, [[1, 0, 0, 0]], [0]⟩ ⟨2, 1, [[1, 0, 0, 0]], [0]⟩ rfl rfl
    ⟨2, [(0, 1)]⟩ [[1, 2], [3, 4]]

end DGL
